import Mathlib

unseal String.substrEq.loop

/-!
Verification development for the `upgrade-client-automation` refactoring
planner and executor (TypeScript sources under `src/`).

The TypeScript parser and AST path-query engine are external black boxes
(per the design document, out of scope): tree nodes are modelled by small
structures carrying exactly the observations the program makes of them
(source path, identifier, parameter list, modifier keywords, open-paren
tokens, import declarations).  Everything else — the requirement model,
the consequence finder, requirement equality, the import manager and the
per-requirement executors — is translated directly from the TypeScript
sources.
-/

namespace UpgradeClientAutomation

/-- The `Access` type of the requirement model: the visibility classification of a
callable.  The source represents it as a tagged object `{ kind: "..." }`. -/
inductive Access where
  | PublicFunctionAccess
  | PrivateFunctionAccess
  | PublicMethodAccess
  | PrivateMethodAccess
deriving DecidableEq, Repr

/-- Kind of one link of an enclosing-scope chain
(`"class around method"` or `"enclosing namespace"` in the source). -/
inductive ScopeKind where
  | classAroundMethod
  | enclosingNamespace
deriving DecidableEq, Repr

/-- One link of the enclosing-scope chain of a callable: a class or namespace
with a name and an exported flag.  The source links scopes through an optional
`enclosingScope` pointer; the chain is modelled as a `List Scope`,
innermost scope first (the empty list is the absent scope). -/
structure Scope where
  kind : ScopeKind
  name : String
  exported : Bool
deriving DecidableEq, Repr

/-- The `FunctionCallIdentifier`: the canonical handle for a callable
(name, scope chain, declaring file, access). -/
structure FunctionCallIdentifier where
  name : String
  filePath : String
  enclosingScope : List Scope
  access : Access
deriving DecidableEq, Repr

/-- The `ImportIdentifier` of `manipulateImports` / `addImport`: either a
library import (module specifier) or a local one (project-relative path,
with an optional `externalPath` under which downstream consumers see the
same symbol). -/
inductive ImportIdentifier where
  | library (name : String) (location : String)
  | localImport (name : String) (localPath : String) (externalPath : Option String)
deriving DecidableEq, Repr

/-- The `name` field shared by both import variants. -/
def ImportIdentifier.name : ImportIdentifier → String
  | .library n _ => n
  | .localImport n _ _ => n

/-- The `populateInTests` field of an `AddParameterRequirement`. -/
structure PopulateInTests where
  dummyValue : String
  additionalImport : Option ImportIdentifier
deriving DecidableEq, Repr

/-- A formal parameter of a declaration, as the planner observes it through
the path expression `/SyntaxList/Parameter[/TypeReference[@value='T']]/Identifier`:
its identifier and the textual value of its type reference. -/
structure Parameter where
  name : String
  typeName : String
deriving DecidableEq, Repr

end UpgradeClientAutomation

namespace TypescriptEditing

open UpgradeClientAutomation

/-- The `AddParameterRequirement` fields (without its opaque `why` provenance, which
lives on the `Requirement` wrapper): insert a new first parameter into the
target's declaration. -/
structure AddParameterRequirement where
  functionWithAdditionalParameter : FunctionCallIdentifier
  parameterType : ImportIdentifier
  parameterName : String
  populateInTests : PopulateInTests
deriving DecidableEq, Repr

/-- The `PassArgumentRequirement`: at calls of the target inside the enclosing
function, prepend the argument value. -/
structure PassArgumentRequirement where
  enclosingFunction : FunctionCallIdentifier
  functionWithAdditionalParameter : FunctionCallIdentifier
  argumentValue : String
deriving DecidableEq, Repr

/-- The `PassDummyInTestsRequirement`: at calls of the target under the test
sources, prepend the dummy value and add the additional import. -/
structure PassDummyInTestsRequirement where
  functionWithAdditionalParameter : FunctionCallIdentifier
  dummyValue : String
  additionalImport : Option ImportIdentifier
deriving DecidableEq, Repr

/-- The requirement sum type of the `typescriptEditing` component.  Each
variant carries the opaque `why` provenance (the requirement that generated
it), which is never consulted for equality. -/
inductive Requirement where
  | addParameter (r : AddParameterRequirement) (why : Option Requirement)
  | passArgument (r : PassArgumentRequirement) (why : Option Requirement)
  | passDummyInTests (r : PassDummyInTestsRequirement) (why : Option Requirement)
  | addMigration (downstreamRequirement : Requirement) (why : Option Requirement)

/-- Discriminates `AddMigrationRequirement`s, as `isAddMigrationRequirement` does. -/
def isAddMigrationRequirement : Requirement → Bool
  | .addMigration _ _ => true
  | _ => false

/-- Discriminates `PassDummyInTestsRequirement`s, as `isPassDummyInTests` does. -/
def isPassDummyInTests : Requirement → Bool
  | .passDummyInTests _ _ => true
  | _ => false

/-- The `Consequences` of a requirement: the concomitant and prerequisite changes a requirement
induces (from `Consequences.ts`). -/
structure Consequences where
  concomitantChanges : List Requirement
  prerequisiteChanges : List Requirement

/-- Function `combineConsequences` from `Consequences.ts`: componentwise concatenation. -/
def combineConsequences (c1 c2 : Consequences) : Consequences :=
  { concomitantChanges := c1.concomitantChanges ++ c2.concomitantChanges,
    prerequisiteChanges := c1.prerequisiteChanges ++ c2.prerequisiteChanges }

/-- Function `concomitantChange` from `Consequences.ts`: a single concomitant requirement. -/
def concomitantChange (r : Requirement) : Consequences :=
  { concomitantChanges := [r], prerequisiteChanges := [] }

/-- Constant `emptyConsequences` from `Consequences.ts`. -/
def emptyConsequences : Consequences :=
  { concomitantChanges := [], prerequisiteChanges := [] }

/-- An enclosing-declaration match returned by
`findMatches(project, TypeScriptES6FileParser, glob, callWithinFunction + "|" + callWithinMethod)`:
a `FunctionDeclaration` or `MethodDeclaration` node wrapping a call to the
target.  The parser is an external black box; the node is modelled by the
observations the planner makes of it: `sourceLocation.path`, its first
`Identifier` child, the scope chain and access that
`functionCallIdentifierFromTreeNode` infers from its ancestors and
modifiers, and the parameters found by
`/SyntaxList/Parameter[/TypeReference[@value='T']]/Identifier`. -/
structure FunctionMatch where
  filePath : String
  name : String
  enclosingScope : List Scope
  access : Access
  parameters : List Parameter
deriving DecidableEq, Repr

/-- Modelled from the spec: `src/typescriptEditing/functionCallIdentifier.ts`
(`functionCallIdentifierFromTreeNode`) is not under `src/`.  Per the spec it
infers an identifier from an AST node by walking parents accumulating
class/namespace scopes and determining access from modifiers; the match
node model already carries the result of that walk. -/
def functionCallIdentifierFromTreeNode (enclosingFunction : FunctionMatch) :
    FunctionCallIdentifier :=
  { name := enclosingFunction.name,
    filePath := enclosingFunction.filePath,
    enclosingScope := enclosingFunction.enclosingScope,
    access := enclosingFunction.access }

/-- Modelled from the spec: `src/typescriptEditing/functionCallIdentifier.ts`
(`isPublicFunctionAccess`) is not under `src/`.  Per the spec,
`PassDummyInTests` is emitted iff the target's access is
`PublicFunctionAccess` or `PublicMethodAccess`, and this predicate is the
gate used for that emission. -/
def isPublicFunctionAccess (access : Access) : Bool :=
  match access with
  | .PublicFunctionAccess => true
  | .PublicMethodAccess => true
  | _ => false

/-- Function `consequencesOfFunctionCall` from `AddParameterRequirement.ts`: the
consequences one enclosing-declaration match contributes.  Call sites in
files whose path starts with `"test"` are skipped; otherwise a suitable
existing parameter is reused, or the enclosing function acquires its own
prerequisite `AddParameter`. -/
def consequencesOfFunctionCall (requirement : AddParameterRequirement)
    (enclosingFunction : FunctionMatch) : Consequences :=
  let filePath := enclosingFunction.filePath
  if filePath.startsWith "test" then
    emptyConsequences -- skip tests
  else
    let suitableParameterMatches := enclosingFunction.parameters.filter
      (fun p => p.typeName = requirement.parameterType.name)
    match suitableParameterMatches with
    | identifier :: _ =>
      let instruction : Requirement := .passArgument
        { enclosingFunction := functionCallIdentifierFromTreeNode enclosingFunction,
          functionWithAdditionalParameter := requirement.functionWithAdditionalParameter,
          argumentValue := identifier.name }
        (some (.addParameter requirement none))
      concomitantChange instruction
    | [] =>
      let passArgument : Requirement := .passArgument
        { enclosingFunction := functionCallIdentifierFromTreeNode enclosingFunction,
          functionWithAdditionalParameter := requirement.functionWithAdditionalParameter,
          argumentValue := requirement.parameterName }
        (some (.addParameter requirement none))
      let newParameterForMe : Requirement := .addParameter
        { functionWithAdditionalParameter := functionCallIdentifierFromTreeNode enclosingFunction,
          parameterType := requirement.parameterType,
          parameterName := requirement.parameterName,
          populateInTests := requirement.populateInTests }
        (some passArgument)
      { concomitantChanges := [passArgument], prerequisiteChanges := [newParameterForMe] }

/-- Modelled from the spec: `src/typescriptEditing/AddMigrationRequirement.ts`
is not under `src/`.  Per the spec, when the downstream requirement's
`parameterType` is `Local { externalPath }`, the migration substitutes
`externalPath` into a `Library` import so consumers resolve it from their
package; other import identifiers pass through unchanged. -/
def migrationParameterType : ImportIdentifier → ImportIdentifier
  | .localImport name _ (some externalPath) => .library name externalPath
  | t => t

/-- Modelled from the spec: construction of the `AddMigrationRequirement`
emitted by `findConsequencesOfAddParameter`
(`new AddMigrationRequirement(requirement, requirement)`); the class itself
is not under `src/`.  Its downstream requirement is the add-parameter
requirement with the `parameterType` resolved for downstream consumers, and
its `why` is the originating requirement. -/
def addMigrationRequirement (requirement : AddParameterRequirement) : Requirement :=
  .addMigration
    (.addParameter { requirement with parameterType := migrationParameterType requirement.parameterType } none)
    (some (.addParameter requirement none))

/-- Function `findConsequencesOfAddParameter` from `AddParameterRequirement.ts`.
The black-box `findMatches` call is modelled by its result: the list of
enclosing-declaration matches found under
`globFromAccess(requirement.functionWithAdditionalParameter)`. -/
def findConsequencesOfAddParameter (foundMatches : List FunctionMatch)
    (requirement : AddParameterRequirement) : Consequences :=
  let passDummyInTests : Requirement := .passDummyInTests
    { functionWithAdditionalParameter := requirement.functionWithAdditionalParameter,
      dummyValue := requirement.populateInTests.dummyValue,
      additionalImport := requirement.populateInTests.additionalImport }
    none
  let testConsequences :=
    if isPublicFunctionAccess requirement.functionWithAdditionalParameter.access then
      concomitantChange passDummyInTests
    else
      emptyConsequences
  let externalConsequences := concomitantChange (addMigrationRequirement requirement)
  let globalConsequences := combineConsequences testConsequences externalConsequences
  let srcConsequences := foundMatches.foldl
    (fun cc functionCallMatch =>
      combineConsequences cc (consequencesOfFunctionCall requirement functionCallMatch))
    emptyConsequences
  combineConsequences srcConsequences globalConsequences

/-- Branch lemma for `consequencesOfFunctionCall`: call sites in files whose
path starts with `"test"` are skipped. -/
theorem consequencesOfFunctionCall_of_test (requirement : AddParameterRequirement)
    (m : FunctionMatch) (h : m.filePath.startsWith "test" = true) :
    consequencesOfFunctionCall requirement m = emptyConsequences := by
  simp only [consequencesOfFunctionCall]
  rw [h]
  rfl

/-- Branch lemma for `consequencesOfFunctionCall`: when the enclosing
declaration has a parameter of the required type, the first such parameter
is reused in a single concomitant `PassArgument`. -/
theorem consequencesOfFunctionCall_of_param (requirement : AddParameterRequirement)
    (m : FunctionMatch) (p : Parameter) (ps : List Parameter)
    (h : m.filePath.startsWith "test" = false)
    (hfilter : m.parameters.filter
        (fun q => q.typeName = requirement.parameterType.name) = p :: ps) :
    consequencesOfFunctionCall requirement m =
      concomitantChange (.passArgument
        { enclosingFunction := functionCallIdentifierFromTreeNode m,
          functionWithAdditionalParameter := requirement.functionWithAdditionalParameter,
          argumentValue := p.name }
        (some (.addParameter requirement none))) := by
  simp only [consequencesOfFunctionCall]
  rw [h, hfilter]
  rfl

/-- Branch lemma for `consequencesOfFunctionCall`: when no parameter of the
required type exists, a concomitant `PassArgument` passing the root's
`parameterName` is emitted along with a prerequisite `AddParameter` for the
enclosing declaration. -/
theorem consequencesOfFunctionCall_of_no_param (requirement : AddParameterRequirement)
    (m : FunctionMatch)
    (h : m.filePath.startsWith "test" = false)
    (hfilter : m.parameters.filter
        (fun q => q.typeName = requirement.parameterType.name) = []) :
    consequencesOfFunctionCall requirement m =
      { concomitantChanges := [.passArgument
          { enclosingFunction := functionCallIdentifierFromTreeNode m,
            functionWithAdditionalParameter := requirement.functionWithAdditionalParameter,
            argumentValue := requirement.parameterName }
          (some (.addParameter requirement none))],
        prerequisiteChanges := [.addParameter
          { functionWithAdditionalParameter := functionCallIdentifierFromTreeNode m,
            parameterType := requirement.parameterType,
            parameterName := requirement.parameterName,
            populateInTests := requirement.populateInTests }
          (some (.passArgument
            { enclosingFunction := functionCallIdentifierFromTreeNode m,
              functionWithAdditionalParameter := requirement.functionWithAdditionalParameter,
              argumentValue := requirement.parameterName }
            (some (.addParameter requirement none))))] } := by
  simp only [consequencesOfFunctionCall]
  rw [h, hfilter]
  rfl

/-- No consequence contributed by a call-site match is an `AddMigration`:
each match contributes only `PassArgument` and `AddParameter` requirements. -/
theorem consequencesOfFunctionCall_no_migration (requirement : AddParameterRequirement)
    (m : FunctionMatch) :
    ∀ x ∈ (consequencesOfFunctionCall requirement m).concomitantChanges
        ++ (consequencesOfFunctionCall requirement m).prerequisiteChanges,
      isAddMigrationRequirement x = false := by
  intro x hx
  by_cases h : m.filePath.startsWith "test" = true
  · rw [consequencesOfFunctionCall_of_test requirement m h] at hx
    simp [emptyConsequences] at hx
  · rw [Bool.not_eq_true] at h
    rcases hfilter : m.parameters.filter
        (fun q => q.typeName = requirement.parameterType.name) with _ | ⟨p, ps⟩
    · rw [consequencesOfFunctionCall_of_no_param requirement m h hfilter] at hx
      simp only [List.mem_append, List.mem_singleton] at hx
      rcases hx with hx | hx <;> subst hx <;> rfl
    · rw [consequencesOfFunctionCall_of_param requirement m p ps h hfilter] at hx
      simp only [concomitantChange, List.mem_append, List.mem_singleton,
        List.not_mem_nil, or_false] at hx
      subst hx
      rfl

/-- The fold over call-site matches in `findConsequencesOfAddParameter`
introduces no `AddMigration` beyond those already in the accumulator. -/
theorem foldl_consequences_no_migration (requirement : AddParameterRequirement) :
    ∀ (ms : List FunctionMatch) (acc : Consequences),
      (∀ x ∈ acc.concomitantChanges ++ acc.prerequisiteChanges,
        isAddMigrationRequirement x = false) →
      ∀ x ∈ (ms.foldl (fun cc functionCallMatch =>
              combineConsequences cc (consequencesOfFunctionCall requirement functionCallMatch))
            acc).concomitantChanges
          ++ (ms.foldl (fun cc functionCallMatch =>
              combineConsequences cc (consequencesOfFunctionCall requirement functionCallMatch))
            acc).prerequisiteChanges,
        isAddMigrationRequirement x = false := by
  intro ms
  induction ms with
  | nil => intro acc hacc; exact hacc
  | cons m ms ih =>
    intro acc hacc
    simp only [List.foldl_cons]
    apply ih
    intro x hx
    simp only [combineConsequences, List.mem_append] at hx
    rcases hx with (hx | hx) | (hx | hx)
    · exact hacc x (List.mem_append.mpr (Or.inl hx))
    · exact consequencesOfFunctionCall_no_migration requirement m x
        (List.mem_append.mpr (Or.inl hx))
    · exact hacc x (List.mem_append.mpr (Or.inr hx))
    · exact consequencesOfFunctionCall_no_migration requirement m x
        (List.mem_append.mpr (Or.inr hx))

/-- An add-parameter requirement on a private target whose planning
nevertheless emits an `AddMigration`: the example root of scenario S1
(`priv` in `src/f.ts`, `PrivateFunctionAccess`). -/
def privateRootRequirement : AddParameterRequirement :=
  { functionWithAdditionalParameter :=
      { name := "priv", filePath := "src/f.ts", enclosingScope := [],
        access := .PrivateFunctionAccess },
    parameterType := .localImport "HandlerContext" "src/HandlerContext" none,
    parameterName := "context",
    populateInTests := { dummyValue := "\x7b\x7d as HandlerContext", additionalImport := none } }

/-- C1: evaluation of the planner at a private-access root.  The
`PassDummyInTests` half of the privacy gate holds (no dummy is emitted),
but `findConsequencesOfAddParameter` emits its `AddMigrationRequirement`
unconditionally, so the flattened changeset of a private root still
contains an `AddMigration` — contradicting the gating the specification
and the repository's own tests
("Does not request a migration for a private function") require. -/
theorem privateRoot_still_emits_migration :
    privateRootRequirement.functionWithAdditionalParameter.access
        = Access.PrivateFunctionAccess
      ∧ ((findConsequencesOfAddParameter [] privateRootRequirement).concomitantChanges
          ++ (findConsequencesOfAddParameter [] privateRootRequirement).prerequisiteChanges).countP
            isPassDummyInTests = 0
      ∧ ((findConsequencesOfAddParameter [] privateRootRequirement).concomitantChanges
          ++ (findConsequencesOfAddParameter [] privateRootRequirement).prerequisiteChanges).countP
            isAddMigrationRequirement = 1 :=
  ⟨rfl, rfl, rfl⟩

/-- C2: for a call site found inside an enclosing declaration in a non-test
source file, `consequencesOfFunctionCall` either reuses an existing
parameter of the required type — emitting only a concomitant `PassArgument`
whose `argumentValue` is that parameter's identifier and no `AddParameter`
for the enclosing function — or, when no such parameter exists, emits a
prerequisite `AddParameter` for the enclosing function (same
`parameterType`, `parameterName` and `populateInTests`) together with a
concomitant `PassArgument` passing the root's `parameterName`. -/
theorem consequencesOfFunctionCall_reuse_or_receive
    (requirement : AddParameterRequirement) (enclosingFunction : FunctionMatch)
    (hsrc : enclosingFunction.filePath.startsWith "test" = false) :
    (∀ p ps,
      enclosingFunction.parameters.filter
          (fun q => q.typeName = requirement.parameterType.name) = p :: ps →
      consequencesOfFunctionCall requirement enclosingFunction =
        concomitantChange (.passArgument
          { enclosingFunction := functionCallIdentifierFromTreeNode enclosingFunction,
            functionWithAdditionalParameter := requirement.functionWithAdditionalParameter,
            argumentValue := p.name }
          (some (.addParameter requirement none))))
    ∧ (enclosingFunction.parameters.filter
          (fun q => q.typeName = requirement.parameterType.name) = [] →
      consequencesOfFunctionCall requirement enclosingFunction =
        { concomitantChanges := [.passArgument
            { enclosingFunction := functionCallIdentifierFromTreeNode enclosingFunction,
              functionWithAdditionalParameter := requirement.functionWithAdditionalParameter,
              argumentValue := requirement.parameterName }
            (some (.addParameter requirement none))],
          prerequisiteChanges := [.addParameter
            { functionWithAdditionalParameter :=
                functionCallIdentifierFromTreeNode enclosingFunction,
              parameterType := requirement.parameterType,
              parameterName := requirement.parameterName,
              populateInTests := requirement.populateInTests }
            (some (.passArgument
              { enclosingFunction := functionCallIdentifierFromTreeNode enclosingFunction,
                functionWithAdditionalParameter := requirement.functionWithAdditionalParameter,
                argumentValue := requirement.parameterName }
              (some (.addParameter requirement none))))] }) := by
  constructor
  · intro p ps hfilter
    exact consequencesOfFunctionCall_of_param requirement enclosingFunction p ps hsrc hfilter
  · intro hfilter
    exact consequencesOfFunctionCall_of_no_param requirement enclosingFunction hsrc hfilter

/-- A public enclosing function that already has a `HandlerContext`
parameter (`ctx`), used to exercise the parameter-reuse branch. -/
def reuseEnclosingMatch : FunctionMatch :=
  { filePath := "src/Classy.ts", name := "otherThinger", enclosingScope := [],
    access := .PublicFunctionAccess,
    parameters := [{ name := "params", typeName := "P" },
                   { name := "ctx", typeName := "HandlerContext" }] }

/-- A public add-parameter root used as a concrete planner input. -/
def publicRootRequirement : AddParameterRequirement :=
  { functionWithAdditionalParameter :=
      { name := "thinger", filePath := "src/thinger.ts", enclosingScope := [],
        access := .PublicFunctionAccess },
    parameterType := .localImport "HandlerContext" "../HandlerContext.ts"
      (some "@atomist/automation-client"),
    parameterName := "context",
    populateInTests := { dummyValue := "\x7b\x7d", additionalImport := none } }

/-- Witness for C2 at a concrete input: the enclosing function in
`src/Classy.ts` has a `HandlerContext` parameter `ctx`, and the planner
emits exactly the concomitant `PassArgument` reusing `ctx`. -/
theorem consequencesOfFunctionCall_reuse_or_receive_witness :
    ("src/Classy.ts".startsWith "test" = false)
      ∧ consequencesOfFunctionCall publicRootRequirement reuseEnclosingMatch =
          concomitantChange (.passArgument
            { enclosingFunction := functionCallIdentifierFromTreeNode reuseEnclosingMatch,
              functionWithAdditionalParameter :=
                publicRootRequirement.functionWithAdditionalParameter,
              argumentValue := "ctx" }
            (some (.addParameter publicRootRequirement none))) :=
  ⟨by decide,
    (consequencesOfFunctionCall_reuse_or_receive publicRootRequirement reuseEnclosingMatch
        (by decide)).1
      { name := "ctx", typeName := "HandlerContext" } [] (by decide)⟩

/-- C3: for a public root the planned consequence list contains exactly one
`AddMigration` — the one whose downstream requirement is the root — and
when the root's `parameterType` is a `Local` import carrying an
`externalPath`, that migration's downstream `AddParameter` has its
`parameterType` replaced by a `Library` import located at the
`externalPath`. -/
theorem migration_unique_and_resolved_for_public_root
    (foundMatches : List FunctionMatch) (requirement : AddParameterRequirement)
    (hpub : isPublicFunctionAccess
        requirement.functionWithAdditionalParameter.access = true) :
    ((findConsequencesOfAddParameter foundMatches requirement).concomitantChanges
        ++ (findConsequencesOfAddParameter foundMatches requirement).prerequisiteChanges).filter
          isAddMigrationRequirement
        = [addMigrationRequirement requirement]
      ∧ ∀ n lp ext, requirement.parameterType = .localImport n lp (some ext) →
          addMigrationRequirement requirement
            = .addMigration
                (.addParameter { requirement with parameterType := .library n ext } none)
                (some (.addParameter requirement none)) := by
  constructor
  · have hsrc := foldl_consequences_no_migration requirement foundMatches emptyConsequences
      (by intro x hx; simp [emptyConsequences] at hx)
    have hc : (foundMatches.foldl (fun cc functionCallMatch =>
          combineConsequences cc (consequencesOfFunctionCall requirement functionCallMatch))
          emptyConsequences).concomitantChanges.filter isAddMigrationRequirement = [] :=
      List.filter_eq_nil_iff.mpr (fun a ha => by
        simp [hsrc a (List.mem_append.mpr (Or.inl ha))])
    have hp : (foundMatches.foldl (fun cc functionCallMatch =>
          combineConsequences cc (consequencesOfFunctionCall requirement functionCallMatch))
          emptyConsequences).prerequisiteChanges.filter isAddMigrationRequirement = [] :=
      List.filter_eq_nil_iff.mpr (fun a ha => by
        simp [hsrc a (List.mem_append.mpr (Or.inr ha))])
    simp only [findConsequencesOfAddParameter]
    rw [if_pos hpub]
    generalize hA : (foundMatches.foldl (fun cc functionCallMatch =>
        combineConsequences cc (consequencesOfFunctionCall requirement functionCallMatch))
        emptyConsequences) = A at hc hp ⊢
    simp only [combineConsequences, concomitantChange]
    simp only [List.append_nil, List.nil_append, List.filter_append, hc, hp]
    simp [isAddMigrationRequirement, addMigrationRequirement]
  · intro n lp ext hpt
    simp [addMigrationRequirement, migrationParameterType, hpt]

/-- Witness for C3 at a concrete input: the public root with a local
parameter type carrying `externalPath = "@atomist/automation-client"`,
planned with no call-site matches. -/
theorem migration_unique_and_resolved_for_public_root_witness :
    (isPublicFunctionAccess
        publicRootRequirement.functionWithAdditionalParameter.access = true)
      ∧ ((findConsequencesOfAddParameter [] publicRootRequirement).concomitantChanges
          ++ (findConsequencesOfAddParameter [] publicRootRequirement).prerequisiteChanges).filter
            isAddMigrationRequirement
          = [addMigrationRequirement publicRootRequirement]
      ∧ addMigrationRequirement publicRootRequirement
          = .addMigration
              (.addParameter { publicRootRequirement with
                parameterType := .library "HandlerContext" "@atomist/automation-client" } none)
              (some (.addParameter publicRootRequirement none)) :=
  ⟨rfl,
    (migration_unique_and_resolved_for_public_root [] publicRootRequirement rfl).1,
    (migration_unique_and_resolved_for_public_root [] publicRootRequirement rfl).2
      "HandlerContext" "../HandlerContext.ts" "@atomist/automation-client" rfl⟩

/-- A call-site match whose file path begins with `"tests"` but not with
`"test/"`. -/
def testsDirectoryMatch : FunctionMatch :=
  { filePath := "tests/helper.ts", name := "helper", enclosingScope := [],
    access := .PublicFunctionAccess, parameters := [] }

/-- Counterexample to C8 as stated: a call site in `tests/helper.ts` is
skipped (contributes no consequences) even though its path does not start
with `"test/"` — the source guard is `filePath.startsWith("test")`. -/
theorem testSkip_counterexample :
    consequencesOfFunctionCall publicRootRequirement testsDirectoryMatch
        = emptyConsequences
      ∧ testsDirectoryMatch.filePath.startsWith "test/" = false :=
  ⟨rfl, by decide⟩

/-- C8 (amended): a discovered call site contributes no consequences iff
the path of the file containing the enclosing declaration starts with
`"test"` (not `"test/"`: paths such as `tests/…` are skipped too). -/
theorem consequencesOfFunctionCall_skipped_iff_testPath
    (requirement : AddParameterRequirement) (m : FunctionMatch) :
    consequencesOfFunctionCall requirement m = emptyConsequences
      ↔ m.filePath.startsWith "test" = true := by
  constructor
  · intro h
    by_contra hn
    rw [Bool.not_eq_true] at hn
    unfold consequencesOfFunctionCall at h
    rw [if_neg (by simp [hn])] at h
    rcases hfilter : m.parameters.filter
        (fun p => p.typeName = requirement.parameterType.name) with _ | ⟨p, ps⟩ <;>
      rw [hfilter] at h <;>
      exact absurd (congrArg Consequences.concomitantChanges h) (by simp [concomitantChange, emptyConsequences])
  · intro h
    unfold consequencesOfFunctionCall
    rw [if_pos (by simp [h])]

/-- C10: `combineConsequences` concatenates the `concomitantChanges` and the
`prerequisiteChanges` lists of its two arguments componentwise, so it is
associative, and `emptyConsequences` is a two-sided identity for it. -/
theorem combineConsequences_assoc_and_identity :
    ∀ a b c : Consequences,
      combineConsequences a (combineConsequences b c)
          = combineConsequences (combineConsequences a b) c
        ∧ combineConsequences emptyConsequences a = a
        ∧ combineConsequences a emptyConsequences = a := by
  intro a b c
  refine ⟨?_, ?_, ?_⟩ <;>
    simp [combineConsequences, emptyConsequences, List.append_assoc]

end TypescriptEditing

namespace AddParameterImpl

open UpgradeClientAutomation

/-- A function or method declaration `MatchResult`, modelled by the
observations `determineAccess` and `hasKeyword` make of it: the names of
the keyword nodes under its modifier `SyntaxList` (reached by
`/SyntaxList/<keyword>`), plus whether the node is a `MethodDeclaration`
(which the code never consults). -/
structure FnDeclarationNode where
  syntaxListKeywords : List String
  isMethodDeclaration : Bool
deriving DecidableEq, Repr

/-- Function `hasKeyword` from `addParameterImpl.ts`: evaluate
`/SyntaxList/<astElement>` against the declaration and test whether
anything matched. -/
def hasKeyword (fnDeclaration : FnDeclarationNode) (astElement : String) : Bool :=
  fnDeclaration.syntaxListKeywords.contains astElement

/-- Function `determineAccess` from `addParameterImpl.ts`: `ExportKeyword` wins,
then `PrivateKeyword`/`ProtectedKeyword`, else `PrivateFunctionAccess`. -/
def determineAccess (fnDeclaration : FnDeclarationNode) : Access :=
  if hasKeyword fnDeclaration "ExportKeyword" then
    .PublicFunctionAccess
  else if hasKeyword fnDeclaration "PrivateKeyword"
      || hasKeyword fnDeclaration "ProtectedKeyword" then
    .PrivateMethodAccess
  else
    .PrivateFunctionAccess

/-- Counterexample to C5 as stated: a class method declaration carrying none
of the modifier keywords is classified `PrivateFunctionAccess`, not
`PublicMethodAccess` — `determineAccess` has no `PublicMethodAccess` branch
at all. -/
theorem determineAccess_plain_method_counterexample :
    determineAccess { syntaxListKeywords := [], isMethodDeclaration := true }
        = Access.PrivateFunctionAccess
      ∧ determineAccess { syntaxListKeywords := [], isMethodDeclaration := true }
        ≠ Access.PublicMethodAccess := by
  decide

/-- C5 (amended): the access `determineAccess` infers is
`PublicFunctionAccess` when an `ExportKeyword` modifier is present,
`PrivateMethodAccess` when (without export) a `PrivateKeyword` or
`ProtectedKeyword` is present, and `PrivateFunctionAccess` for every other
declaration — including class methods without modifiers, which never
receive `PublicMethodAccess`. -/
theorem determineAccess_classification (fnDeclaration : FnDeclarationNode) :
    (hasKeyword fnDeclaration "ExportKeyword" = true →
        determineAccess fnDeclaration = .PublicFunctionAccess)
      ∧ (hasKeyword fnDeclaration "ExportKeyword" = false →
          (hasKeyword fnDeclaration "PrivateKeyword" = true
            ∨ hasKeyword fnDeclaration "ProtectedKeyword" = true) →
          determineAccess fnDeclaration = .PrivateMethodAccess)
      ∧ (hasKeyword fnDeclaration "ExportKeyword" = false →
          hasKeyword fnDeclaration "PrivateKeyword" = false →
          hasKeyword fnDeclaration "ProtectedKeyword" = false →
          determineAccess fnDeclaration = .PrivateFunctionAccess) := by
  refine ⟨?_, ?_, ?_⟩
  · intro hexp
    simp [determineAccess, hexp]
  · intro hexp hpriv
    rcases hpriv with hpriv | hpriv <;> simp [determineAccess, hexp, hpriv]
  · intro hexp hpriv hprot
    simp [determineAccess, hexp, hpriv, hprot]

/-- Witness for C5 (amended) at concrete declarations: an exported function,
a protected method, and a plain top-level function. -/
theorem determineAccess_classification_witness :
    (hasKeyword { syntaxListKeywords := ["ExportKeyword"], isMethodDeclaration := false }
        "ExportKeyword" = true
      ∧ determineAccess { syntaxListKeywords := ["ExportKeyword"], isMethodDeclaration := false }
        = .PublicFunctionAccess)
      ∧ determineAccess { syntaxListKeywords := ["ProtectedKeyword"], isMethodDeclaration := true }
        = .PrivateMethodAccess
      ∧ determineAccess { syntaxListKeywords := [], isMethodDeclaration := false }
        = .PrivateFunctionAccess :=
  ⟨⟨by decide,
    (determineAccess_classification
      { syntaxListKeywords := ["ExportKeyword"], isMethodDeclaration := false }).1 (by decide)⟩,
    (determineAccess_classification
      { syntaxListKeywords := ["ProtectedKeyword"], isMethodDeclaration := true }).2.1
      (by decide) (Or.inr (by decide)),
    (determineAccess_classification
      { syntaxListKeywords := [], isMethodDeclaration := false }).2.2
      (by decide) (by decide) (by decide)⟩

end AddParameterImpl

namespace UpgradeClientAutomation

/-- An `ImportDeclaration` node of a file, as `AddImport.addImport` observes
and edits it through the black-box parser: the `Identifier` values occurring
under the declaration, the `StringLiteral` module specifier, and whether the
declaration's text contains a `{` (the textual `replace(/{/, ...)` edit is a
no-op on brace-less — default or star — imports; on re-parse an inserted
name appears among the declaration's identifiers). -/
structure ImportDeclarationNode where
  identifiers : List String
  location : String
  hasOpenBrace : Bool
deriving DecidableEq, Repr

/-- A function or method declaration inside a file, as the executor observes
it: the identifier its declaration path expression matches on, and the
`$value`s of its `/OpenParenToken` children (normally exactly one, `"("`). -/
structure FunctionDeclarationNode where
  name : String
  openParens : List String
deriving DecidableEq, Repr

/-- A parsed source file: its import declarations in document order, and the
function declarations the executor's path expressions can match. -/
structure SourceFileNode where
  imports : List ImportDeclarationNode
  declarations : List FunctionDeclarationNode
deriving DecidableEq, Repr

/-- The virtual project: an addressable collection of
`{ path, content }` files. -/
abbrev Project := List (String × SourceFileNode)

/-- Operation `findFile`: the file stored at `path`, if any (first match wins). -/
def findFile : Project → String → Option SourceFileNode
  | [], _ => none
  | e :: rest, path => if e.1 = path then some e.2 else findFile rest path

/-- Commit an edited file back into the project. -/
def updateFile : Project → String → SourceFileNode → Project
  | [], _, _ => []
  | e :: rest, path, file =>
    (if e.1 = path then (e.1, file) else e) :: updateFile rest path file

theorem findFile_updateFile_same (project : Project) (path : String)
    (g f : SourceFileNode) (hf : findFile project path = some f) :
    findFile (updateFile project path g) path = some g := by
  induction project with
  | nil => simp [findFile] at hf
  | cons e rest ih =>
    by_cases he : e.1 = path
    · simp [findFile, updateFile, he]
    · simp only [findFile, updateFile, if_neg he] at hf ⊢
      exact ih hf

theorem findFile_updateFile_other (project : Project) (path q : String)
    (g : SourceFileNode) (hq : q ≠ path) :
    findFile (updateFile project path g) q = findFile project q := by
  induction project with
  | nil => rfl
  | cons e rest ih =>
    by_cases he : e.1 = path
    · have hne : ¬ path = q := fun h => hq h.symm
      simp [findFile, updateFile, he, hne, ih]
    · simp [findFile, updateFile, he, ih]

theorem updateFile_updateFile (project : Project) (path : String)
    (g g' : SourceFileNode) :
    updateFile (updateFile project path g) path g' = updateFile project path g' := by
  induction project with
  | nil => rfl
  | cons e rest ih =>
    by_cases he : e.1 = path <;> simp [updateFile, he, ih]

end UpgradeClientAutomation

namespace AddImport

open UpgradeClientAutomation

/-- Function `calculateRelativePath` from `manipulateImports.ts`: a stub that passes
the target path through unchanged (noted as an open question in the design
document). -/
def calculateRelativePath (_fromPath toPath : String) : String :=
  toPath

/-- The module-specifier location `addImport` computes for an import:
`location` of a library import, or `calculateRelativePath(path, localPath)`
for a local one. -/
def importLocation (path : String) (what : ImportIdentifier) : String :=
  match what with
  | .library _ loc => loc
  | .localImport _ localPath _ => calculateRelativePath path localPath

/-- The edit on the first import declaration matching
`//ImportDeclaration[//StringLiteral[@value='<location>']]`: textually
replace the first `{` with `{ name,` (so on re-parse `name` is the first
braced identifier); a declaration whose text has no `{` is left unchanged.
Returns `none` when no import from `location` exists. -/
def addNameToLocationImport (name location : String) :
    List ImportDeclarationNode → Option (List ImportDeclarationNode)
  | [] => none
  | d :: rest =>
    if d.location = location then
      some ((if d.hasOpenBrace then { d with identifiers := name :: d.identifiers } else d)
        :: rest)
    else
      (addNameToLocationImport name location rest).map (fun ds => d :: ds)

/-- Function `AddImport.addImport` from `manipulateImports.ts`.  The source first
locates the file's `SourceFile` node via `findMatches(project, parser,
path, "/SourceFile")`; on a missing file `sources[0]` is `undefined` and
the subsequent member access throws, modelled as an error result.  It then
returns `false` when an identifier with the import's name already occurs
under any `ImportDeclaration`; otherwise it merges into the first import
from the same location, or prepends a fresh
`import { <name> } from "<location>";` statement. -/
def addImport (project : Project) (path : String) (what : ImportIdentifier) :
    Except String (Bool × Project) :=
  match findFile project path with
  | none => .error "TypeError: Cannot read property of undefined"
  | some source =>
    if source.imports.any (fun d => d.identifiers.contains (ImportIdentifier.name what)) then
      -- import found. Not handled: the same identifier is imported from elsewhere.
      .ok (false, project)
    else
      let location := importLocation path what
      match addNameToLocationImport (ImportIdentifier.name what) location source.imports with
      | some imports1 =>
        .ok (true, updateFile project path { source with imports := imports1 })
      | none =>
        -- No existing import to modify. Add one, prepended to the file text.
        .ok (true, updateFile project path
          { source with imports :=
              { identifiers := [ImportIdentifier.name what], location := location,
                hasOpenBrace := true } :: source.imports })

/-- Number of import declarations of the file at `path` that mention
`name` — "import statements for the parameter type". -/
def importCountFor (project : Project) (path name : String) : Nat :=
  match findFile project path with
  | none => 0
  | some f => (f.imports.filter (fun d => d.identifiers.contains name)).length

end AddImport

namespace TypescriptEditing

open UpgradeClientAutomation

/-- An `unimplemented` entry of a `Report`: the requirement and a message. -/
structure Unimplemented where
  requirement : Requirement
  message : String

/-- The `Report` of `Report.ts`: the implemented and unimplemented
requirements accumulated by the executor. -/
structure Report where
  implemented : List Requirement
  unimplemented : List Unimplemented

/-- Function `reportImplemented`. -/
def reportImplemented (requirement : Requirement) : Report :=
  { implemented := [requirement], unimplemented := [] }

/-- Function `reportUnimplemented`. -/
def reportUnimplemented (requirement : Requirement) (message : String) : Report :=
  { implemented := [], unimplemented := [{ requirement := requirement, message := message }] }

/-- Function `requireExactlyOne` from the executor: returns the single match, and
throws (`throw new Error(msg)`) unless the list has exactly one node —
modelled as an `Except` error, which aborts the whole implementation step
instead of being recorded on the `Report`. -/
def requireExactlyOne (m : List String) (msg : String) : Except String String :=
  match m with
  | [x] => .ok x
  | _ => .error msg

/-- The token rewrite performed by the executors:
`const openParen = requireExactlyOne(node.evaluateExpression("/OpenParenToken"), "wtf where is open paren");
openParen.$value = newValue;` — the unique open-paren token's value is
replaced. -/
def rewriteOpenParen (openParens : List String) (newValue : String) :
    Except String (List String) := do
  let _openParen ← requireExactlyOne openParens "wtf where is open paren"
  pure [newValue]

/-- A `CallExpression` match inside the enclosing function, as
`applyPassArgument` observes it: the `$value`s of its `/OpenParenToken`
children. -/
structure CallExpressionNode where
  openParens : List String
deriving DecidableEq, Repr

/-- Function `applyPassArgument` from `addParameterImpl.ts`: zero matches are
recorded as `Unimplemented("Function not found")`; otherwise every matched
call's unique open-paren token is rewritten to `(<argumentValue>, `. -/
def applyPassArgument (matchList : List CallExpressionNode)
    (requirement : PassArgumentRequirement) :
    Except String (Report × List CallExpressionNode) :=
  if matchList.length = 0 then
    .ok (reportUnimplemented (.passArgument requirement none) "Function not found", matchList)
  else do
    let edited ← matchList.mapM (fun enclosingFunction => do
      let newParens ← rewriteOpenParen enclosingFunction.openParens
        ("(" ++ requirement.argumentValue ++ ", ")
      pure { enclosingFunction with openParens := newParens })
    pure (reportImplemented (.passArgument requirement none), edited)

/-- Function `implementAddParameter` from `AddParameterRequirement.ts` (also
`addParameter` in `addParameterImpl.ts`): add the import for the parameter
type, find the declarations matched by the declaration path expression
(modelled as the declarations of the target file whose identifier equals
the target name), and rewrite the unique declaration's open-paren token to
`(<parameterName>: <parameterType.name>, `; zero matches or more than one
are recorded as unimplemented, after the import step already ran. -/
def implementAddParameter (project : Project) (requirement : AddParameterRequirement) :
    Except String (Report × Project) := do
  let (_importAdded, project1) ← AddImport.addImport project
    requirement.functionWithAdditionalParameter.filePath requirement.parameterType
  let declMatches : List FunctionDeclarationNode :=
    match findFile project1 requirement.functionWithAdditionalParameter.filePath with
    | none => []
    | some f => f.declarations.filter
        (fun d => d.name = requirement.functionWithAdditionalParameter.name)
  match declMatches with
  | [] =>
    pure (reportUnimplemented (.addParameter requirement none)
      "Function declaration not found", project1)
  | [functionDeclaration] => do
    let newParens ← rewriteOpenParen functionDeclaration.openParens
      ("(" ++ requirement.parameterName ++ ": "
        ++ ImportIdentifier.name requirement.parameterType ++ ", ")
    let project2 : Project :=
      match findFile project1 requirement.functionWithAdditionalParameter.filePath with
      | none => project1
      | some f => updateFile project1 requirement.functionWithAdditionalParameter.filePath
          { f with declarations := f.declarations.map (fun (d : FunctionDeclarationNode) =>
              if d.name = requirement.functionWithAdditionalParameter.name then
                { d with openParens := newParens }
              else d) }
    pure (reportImplemented (.addParameter requirement none), project2)
  | _ :: _ :: _ =>
    pure (reportUnimplemented (.addParameter requirement none)
      "More than one function declaration matched. I'm confused.", project1)

end TypescriptEditing

namespace AddImport

open UpgradeClientAutomation

/-- When the target file exists, `addImport` succeeds and changes no
declaration of any file: only import lists are touched. -/
theorem addImport_found_preserves (project : Project) (path : String)
    (what : ImportIdentifier) (f : SourceFileNode)
    (hf : findFile project path = some f) :
    ∃ mutated project1, addImport project path what = .ok (mutated, project1)
      ∧ ∀ q, (findFile project1 q).map (fun g => g.declarations)
          = (findFile project q).map (fun g => g.declarations) := by
  simp only [addImport, hf]
  by_cases hex : f.imports.any
      (fun d => d.identifiers.contains (ImportIdentifier.name what)) = true
  · rw [if_pos hex]
    exact ⟨false, project, rfl, fun q => rfl⟩
  · rw [if_neg hex]
    rcases hadd : addNameToLocationImport (ImportIdentifier.name what)
        (importLocation path what) f.imports with _ | imports1 <;>
      refine ⟨true, _, rfl, ?_⟩ <;>
      intro q <;>
      by_cases hq : q = path
    · subst hq
      rw [findFile_updateFile_same project q _ f hf, hf]
      rfl
    · rw [findFile_updateFile_other project path q _ hq]
    · subst hq
      rw [findFile_updateFile_same project q _ f hf, hf]
      rfl
    · rw [findFile_updateFile_other project path q _ hq]

end AddImport

namespace TypescriptEditing

open UpgradeClientAutomation

/-- C9: when a matched call expression (while implementing `PassArgument`)
or the uniquely matched function declaration (while implementing
`AddParameter`) does not have exactly one `OpenParenToken` child,
`requireExactlyOne` throws `Error("wtf where is open paren")` — the failure
is fatal to the implementation step instead of being recorded as
`Unimplemented` on the `Report`. -/
theorem openParen_mismatch_is_fatal :
    (∀ (requirement : PassArgumentRequirement) (m : CallExpressionNode)
        (rest : List CallExpressionNode),
      m.openParens.length ≠ 1 →
      applyPassArgument (m :: rest) requirement = .error "wtf where is open paren")
    ∧ (∀ (project : Project) (requirement : AddParameterRequirement)
        (f : SourceFileNode) (d : FunctionDeclarationNode),
      findFile project requirement.functionWithAdditionalParameter.filePath = some f →
      f.declarations.filter
          (fun e => e.name = requirement.functionWithAdditionalParameter.name) = [d] →
      d.openParens.length ≠ 1 →
      implementAddParameter project requirement = .error "wtf where is open paren") := by
  constructor
  · intro requirement m rest hlen
    have hne : ¬ ((m :: rest).length = 0) := by simp
    simp only [applyPassArgument, if_neg hne]
    rcases hop : m.openParens with _ | ⟨a, l⟩
    · simp [List.mapM.loop, rewriteOpenParen, requireExactlyOne, hop,
        Except.map, Except.bind, Bind.bind, Functor.map]
    · rcases l with _ | ⟨b, l'⟩
      · exact absurd (by rw [hop]; rfl) hlen
      · simp [List.mapM.loop, rewriteOpenParen, requireExactlyOne, hop,
        Except.map, Except.bind, Bind.bind, Functor.map]
  · intro project requirement f d hf hfilter hlen
    obtain ⟨mutated, project1, haddimp, hpres⟩ := AddImport.addImport_found_preserves
      project requirement.functionWithAdditionalParameter.filePath
      requirement.parameterType f hf
    have hfind1 := hpres requirement.functionWithAdditionalParameter.filePath
    rw [hf] at hfind1
    rcases hf1 : findFile project1 requirement.functionWithAdditionalParameter.filePath
      with _ | f1
    · rw [hf1] at hfind1
      simp at hfind1
    · rw [hf1] at hfind1
      have hdecls : f1.declarations = f.declarations := by simpa using hfind1
      unfold implementAddParameter
      rw [haddimp]
      simp only [Except.bind, Bind.bind, hf1, hdecls, hfilter]
      rcases hop : d.openParens with _ | ⟨a, l⟩
      · simp [rewriteOpenParen, requireExactlyOne, hop,
          Except.map, Except.bind, Bind.bind, Functor.map]
      · rcases l with _ | ⟨b, l'⟩
        · exact absurd (by rw [hop]; rfl) hlen
        · simp [rewriteOpenParen, requireExactlyOne, hop,
            Except.map, Except.bind, Bind.bind, Functor.map]

end TypescriptEditing

namespace TypescriptEditing

open UpgradeClientAutomation

/-- Witness for C9 at concrete inputs: a call match with no open-paren token
aborts `applyPassArgument` fatally, and a unique declaration match with two
open-paren tokens aborts `implementAddParameter` fatally. -/
theorem openParen_mismatch_is_fatal_witness :
    (([] : List String).length ≠ 1
      ∧ applyPassArgument [{ openParens := [] }]
          { enclosingFunction := privateRootRequirement.functionWithAdditionalParameter,
            functionWithAdditionalParameter :=
              privateRootRequirement.functionWithAdditionalParameter,
            argumentValue := "context" } = .error "wtf where is open paren")
    ∧ implementAddParameter
        [("src/f.ts",
          { imports := [], declarations := [{ name := "priv", openParens := ["(", "("] }] })]
        privateRootRequirement = .error "wtf where is open paren" :=
  ⟨⟨by decide,
    openParen_mismatch_is_fatal.1
      { enclosingFunction := privateRootRequirement.functionWithAdditionalParameter,
        functionWithAdditionalParameter :=
          privateRootRequirement.functionWithAdditionalParameter,
        argumentValue := "context" }
      { openParens := [] } [] (by decide)⟩,
    openParen_mismatch_is_fatal.2
      [("src/f.ts",
        { imports := [], declarations := [{ name := "priv", openParens := ["(", "("] }] })]
      privateRootRequirement
      { imports := [], declarations := [{ name := "priv", openParens := ["(", "("] }] }
      { name := "priv", openParens := ["(", "("] }
      (by decide) (by decide) (by decide)⟩

/-- C6 (amended): implementing an `AddParameter` requirement against an
existing target file records `Unimplemented("Function declaration not
found")` when the declaration path expression matches nothing, records
`Unimplemented("More than one function declaration matched. I'm
confused.")` when it matches several declarations — in both cases editing
no declaration, although the import step that runs first may already have
modified the file's imports — and only when exactly one declaration
matches is its open-paren token rewritten to insert the parameter. -/
theorem implementAddParameter_declaration_cases
    (project : Project) (requirement : AddParameterRequirement) (f : SourceFileNode)
    (hf : findFile project requirement.functionWithAdditionalParameter.filePath = some f) :
    (f.declarations.filter
        (fun e => e.name = requirement.functionWithAdditionalParameter.name) = [] →
      ∃ project1, implementAddParameter project requirement
          = .ok (reportUnimplemented (.addParameter requirement none)
              "Function declaration not found", project1)
        ∧ ∀ q, (findFile project1 q).map (fun g => g.declarations)
            = (findFile project q).map (fun g => g.declarations))
    ∧ (∀ d1 d2 ds, f.declarations.filter
        (fun e => e.name = requirement.functionWithAdditionalParameter.name) = d1 :: d2 :: ds →
      ∃ project1, implementAddParameter project requirement
          = .ok (reportUnimplemented (.addParameter requirement none)
              "More than one function declaration matched. I'm confused.", project1)
        ∧ ∀ q, (findFile project1 q).map (fun g => g.declarations)
            = (findFile project q).map (fun g => g.declarations))
    ∧ (∀ d t, f.declarations.filter
        (fun e => e.name = requirement.functionWithAdditionalParameter.name) = [d] →
      d.openParens = [t] →
      ∃ project1 f1, implementAddParameter project requirement
          = .ok (reportImplemented (.addParameter requirement none), project1)
        ∧ findFile project1 requirement.functionWithAdditionalParameter.filePath = some f1
        ∧ f1.declarations = f.declarations.map (fun e =>
            if e.name = requirement.functionWithAdditionalParameter.name then
              { e with openParens := ["(" ++ requirement.parameterName ++ ": "
                ++ ImportIdentifier.name requirement.parameterType ++ ", "] }
            else e)) := by
  obtain ⟨mutated, project1, haddimp, hpres⟩ := AddImport.addImport_found_preserves
    project requirement.functionWithAdditionalParameter.filePath
    requirement.parameterType f hf
  have hfind1 := hpres requirement.functionWithAdditionalParameter.filePath
  rw [hf] at hfind1
  rcases hf1 : findFile project1 requirement.functionWithAdditionalParameter.filePath
    with _ | f1
  · rw [hf1] at hfind1
    simp at hfind1
  · rw [hf1] at hfind1
    have hdecls : f1.declarations = f.declarations := by simpa using hfind1
    refine ⟨?_, ?_, ?_⟩
    · intro hzero
      refine ⟨project1, ?_, hpres⟩
      unfold implementAddParameter
      rw [haddimp]
      simp only [Except.bind, Bind.bind, hf1, hdecls, hzero]
      rfl
    · intro d1 d2 ds hmulti
      refine ⟨project1, ?_, hpres⟩
      unfold implementAddParameter
      rw [haddimp]
      simp only [Except.bind, Bind.bind, hf1, hdecls, hmulti]
      rfl
    · intro d t hone hop
      refine ⟨updateFile project1 requirement.functionWithAdditionalParameter.filePath
          { f1 with declarations := f1.declarations.map (fun e =>
              if e.name = requirement.functionWithAdditionalParameter.name then
                { e with openParens := ["(" ++ requirement.parameterName ++ ": "
                  ++ ImportIdentifier.name requirement.parameterType ++ ", "] }
              else e) },
        { f1 with declarations := f1.declarations.map (fun e =>
              if e.name = requirement.functionWithAdditionalParameter.name then
                { e with openParens := ["(" ++ requirement.parameterName ++ ": "
                  ++ ImportIdentifier.name requirement.parameterType ++ ", "] }
              else e) }, ?_, ?_, ?_⟩
      · unfold implementAddParameter
        rw [haddimp]
        simp only [Except.bind, Bind.bind, hf1, hdecls, hone, hop,
          rewriteOpenParen, requireExactlyOne, Except.map, Functor.map, pure,
          Except.pure]
      · exact findFile_updateFile_same project1
          requirement.functionWithAdditionalParameter.filePath _ f1 hf1
      · simp [hdecls]

end TypescriptEditing

namespace TypescriptEditing

open UpgradeClientAutomation

/-- A project with one source file holding a single `priv` declaration. -/
def onePrivFile : SourceFileNode :=
  { imports := [], declarations := [{ name := "priv", openParens := ["("] }] }

/-- Counterexample to C6 as stated: with zero matching declarations the
requirement is recorded as `Unimplemented("Function declaration not
found")`, but an edit HAS been made: the import for the parameter type was
prepended by the import step that runs before the declaration lookup, so
the resulting project differs from the input. -/
theorem implementAddParameter_unfound_still_edits :
    implementAddParameter [("src/f.ts", { imports := [], declarations := [] })]
        privateRootRequirement
      = .ok (reportUnimplemented (.addParameter privateRootRequirement none)
            "Function declaration not found",
          [("src/f.ts",
            { imports :=
                [{ identifiers := ["HandlerContext"], location := "src/HandlerContext",
                   hasOpenBrace := true }],
              declarations := [] })])
    ∧ ([("src/f.ts",
          { imports :=
              [{ identifiers := ["HandlerContext"], location := "src/HandlerContext",
                 hasOpenBrace := true }],
            declarations := [] })] : Project)
      ≠ [("src/f.ts", { imports := [], declarations := [] })] :=
  ⟨rfl, by decide⟩

/-- Witness for C6 (amended) at a concrete input: the unique `priv`
declaration of `src/f.ts` gets its open-paren token rewritten to
`(context: HandlerContext, `. -/
theorem implementAddParameter_declaration_cases_witness :
    (findFile [("src/f.ts", onePrivFile)] "src/f.ts" = some onePrivFile)
    ∧ ∃ project1 f1,
        implementAddParameter [("src/f.ts", onePrivFile)] privateRootRequirement
          = .ok (reportImplemented (.addParameter privateRootRequirement none), project1)
        ∧ findFile project1 privateRootRequirement.functionWithAdditionalParameter.filePath
            = some f1
        ∧ f1.declarations = [{ name := "priv", openParens := ["(context: HandlerContext, "] }] :=
  ⟨by decide, by
    obtain ⟨project1, f1, h1, h2, h3⟩ :=
      (implementAddParameter_declaration_cases [("src/f.ts", onePrivFile)]
          privateRootRequirement onePrivFile (by decide)).2.2
        { name := "priv", openParens := ["("] } "(" (by decide) (by decide)
    exact ⟨project1, f1, h1, h2, by rw [h3]; rfl⟩⟩

end TypescriptEditing

namespace AddImport

open UpgradeClientAutomation

theorem addNameToLocationImport_none_iff (name loc : String) :
    ∀ imports : List ImportDeclarationNode,
      addNameToLocationImport name loc imports = none ↔
        imports.find? (fun d => d.location = loc) = none := by
  intro imports
  induction imports with
  | nil => simp [addNameToLocationImport]
  | cons d rest ih =>
    by_cases hd : d.location = loc
    · rw [List.find?_cons_of_pos _ (by simp [hd])]
      simp [addNameToLocationImport, hd]
    · rw [List.find?_cons_of_neg _ (by simp [hd])]
      simp only [addNameToLocationImport, if_neg hd]
      rw [← ih]
      rcases addNameToLocationImport name loc rest with _ | rs <;> simp

theorem addNameToLocationImport_some_cases (name loc : String) :
    ∀ (imports imports1 : List ImportDeclarationNode),
      addNameToLocationImport name loc imports = some imports1 →
      imports1.any (fun d => d.identifiers.contains name) = true ∨ imports1 = imports := by
  intro imports
  induction imports with
  | nil =>
    intro imports1 h
    simp [addNameToLocationImport] at h
  | cons d rest ih =>
    intro imports1 h
    by_cases hd : d.location = loc
    · simp only [addNameToLocationImport, if_pos hd, Option.some.injEq] at h
      subst h
      by_cases hb : d.hasOpenBrace = true
      · left
        simp [hb, List.any_cons]
      · right
        simp [hb]
    · simp only [addNameToLocationImport, if_neg hd] at h
      rcases hr : addNameToLocationImport name loc rest with _ | rs
      · rw [hr] at h
        simp at h
      · rw [hr] at h
        simp only [Option.map_some', Option.some.injEq] at h
        subst h
        rcases ih rs hr with hany | heq
        · left
          rw [List.any_cons, hany, Bool.or_true]
        · right
          rw [heq]

end AddImport

namespace AddImport

open UpgradeClientAutomation

theorem filter_contains_nil (name : String) (imports : List ImportDeclarationNode)
    (hclean : ∀ e ∈ imports, e.identifiers.contains name = false) :
    imports.filter (fun e => e.identifiers.contains name) = [] :=
  List.filter_eq_nil_iff.mpr (fun e he => by simpa using hclean e he)

theorem count_after_addName (name loc : String) :
    ∀ (imports imports1 : List ImportDeclarationNode) (d : ImportDeclarationNode),
      (∀ e ∈ imports, e.identifiers.contains name = false) →
      imports.find? (fun e => e.location = loc) = some d →
      addNameToLocationImport name loc imports = some imports1 →
      (imports1.filter (fun e => e.identifiers.contains name)).length
        = if d.hasOpenBrace then 1 else 0 := by
  intro imports
  induction imports with
  | nil =>
    intro imports1 d _ hfind _
    simp at hfind
  | cons e rest ih =>
    intro imports1 d hclean hfind hadd
    have hcleanRest : ∀ x ∈ rest, x.identifiers.contains name = false :=
      fun x hx => hclean x (List.mem_cons_of_mem e hx)
    by_cases he : e.location = loc
    · rw [List.find?_cons_of_pos _ (by simp [he])] at hfind
      injection hfind with hd
      subst hd
      simp only [addNameToLocationImport, if_pos he, Option.some.injEq] at hadd
      subst hadd
      by_cases hb : e.hasOpenBrace = true
      · rw [hb]
        rw [List.filter_cons_of_pos (by simp), filter_contains_nil name rest hcleanRest]
        simp
      · have hbe : e.hasOpenBrace = false := by simpa using hb
        rw [hbe]
        rw [List.filter_cons_of_neg (by simpa using hclean e (List.mem_cons_self e rest)),
          filter_contains_nil name rest hcleanRest]
        simp
    · rw [List.find?_cons_of_neg _ (by simp [he])] at hfind
      simp only [addNameToLocationImport, if_neg he] at hadd
      rcases hr : addNameToLocationImport name loc rest with _ | rs
      · rw [hr] at hadd
        simp at hadd
      · rw [hr] at hadd
        simp only [Option.map_some', Option.some.injEq] at hadd
        subst hadd
        rw [List.filter_cons_of_neg (by simpa using hclean e (List.mem_cons_self e rest))]
        exact ih rs d hcleanRest hfind hr

end AddImport

namespace AddImport

open UpgradeClientAutomation

/-- C7 (amended): `addImport` returns `false` and leaves the project
unchanged when an identifier with the import's name already occurs under an
`ImportDeclaration` of the file, and re-applying it after any successful
application leaves the project exactly as the first application left it;
consequently implementing the same `AddParameter` requirement twice yields
exactly one import statement for the parameter type — unless the file
already had an import from the same module specifier without a `{` (a
default or `*` import), in which case the textual insertion is a no-op and
zero import statements mention the name. -/
theorem addImport_idempotent_and_import_count
    (project : Project) (path : String) (what : ImportIdentifier) (f : SourceFileNode)
    (hf : findFile project path = some f) :
    (f.imports.any (fun d => d.identifiers.contains (ImportIdentifier.name what)) = true →
        addImport project path what = .ok (false, project))
    ∧ (∀ b1 p1, addImport project path what = .ok (b1, p1) →
        ∃ b2, addImport p1 path what = .ok (b2, p1))
    ∧ ((∀ e ∈ f.imports, e.identifiers.contains (ImportIdentifier.name what) = false) →
        ∀ b1 p1, addImport project path what = .ok (b1, p1) →
        importCountFor p1 path (ImportIdentifier.name what)
          = (match f.imports.find? (fun e => e.location = importLocation path what) with
             | some e => if e.hasOpenBrace then 1 else 0
             | none => 1)) := by
  refine ⟨?_, ?_, ?_⟩
  · intro hex
    simp only [addImport, hf]
    rw [if_pos hex]
  · intro b1 p1 hrun
    simp only [addImport, hf] at hrun
    by_cases hex : f.imports.any
        (fun d => d.identifiers.contains (ImportIdentifier.name what)) = true
    · rw [if_pos hex] at hrun
      simp only [Except.ok.injEq, Prod.mk.injEq] at hrun
      obtain ⟨hb1, hp1⟩ := hrun
      subst hp1
      refine ⟨false, ?_⟩
      simp only [addImport, hf]
      rw [if_pos hex]
    · rw [if_neg hex] at hrun
      rcases hadd : addNameToLocationImport (ImportIdentifier.name what)
          (importLocation path what) f.imports with _ | imports1 <;>
        rw [hadd] at hrun <;>
        simp only [Except.ok.injEq, Prod.mk.injEq] at hrun <;>
        obtain ⟨hb1, hp1⟩ := hrun <;>
        subst hp1
      · -- a fresh import statement containing the name was prepended
        refine ⟨false, ?_⟩
        have hffound := findFile_updateFile_same project path
          { f with imports :=
              { identifiers := [ImportIdentifier.name what],
                location := importLocation path what, hasOpenBrace := true } :: f.imports }
          f hf
        simp only [addImport, hffound]
        rw [if_pos (by simp [List.any_cons])]
      · rcases addNameToLocationImport_some_cases (ImportIdentifier.name what)
            (importLocation path what) f.imports imports1 hadd with hany | heq
        · -- name merged into an existing braced import
          refine ⟨false, ?_⟩
          have hffound := findFile_updateFile_same project path
            { f with imports := imports1 } f hf
          simp only [addImport, hffound]
          rw [if_pos hany]
        · -- brace-less location import: the file value is unchanged
          subst heq
          refine ⟨true, ?_⟩
          have hfeta : ({ f with imports := f.imports } : SourceFileNode) = f := rfl
          rw [hfeta]
          have hffound := findFile_updateFile_same project path f f hf
          simp only [addImport, hffound]
          rw [if_neg hex, hadd]
          show Except.ok (true, updateFile (updateFile project path f) path
              { f with imports := f.imports }) = Except.ok (true, updateFile project path f)
          rw [hfeta, updateFile_updateFile]
  · intro hclean b1 p1 hrun
    have hex : ¬ f.imports.any
        (fun d => d.identifiers.contains (ImportIdentifier.name what)) = true := by
      simp only [List.any_eq_true, not_exists, not_and]
      intro e he
      simpa using hclean e he
    simp only [addImport, hf] at hrun
    rw [if_neg hex] at hrun
    rcases hadd : addNameToLocationImport (ImportIdentifier.name what)
        (importLocation path what) f.imports with _ | imports1 <;>
      rw [hadd] at hrun <;>
      simp only [Except.ok.injEq, Prod.mk.injEq] at hrun <;>
      obtain ⟨hb1, hp1⟩ := hrun <;>
      subst hp1
    · -- no import from this location: a fresh statement is prepended
      have hfind : f.imports.find?
          (fun e => e.location = importLocation path what) = none :=
        (addNameToLocationImport_none_iff _ _ f.imports).mp hadd
      rw [hfind]
      have hffound := findFile_updateFile_same project path
        { f with imports :=
            { identifiers := [ImportIdentifier.name what],
              location := importLocation path what, hasOpenBrace := true } :: f.imports }
        f hf
      simp only [importCountFor, hffound]
      rw [List.filter_cons_of_pos (by simp), filter_contains_nil _ _ hclean]
      rfl
    · -- merged into the first import from this location
      rcases hfind : f.imports.find?
          (fun e => e.location = importLocation path what) with _ | d
      · exact absurd hadd (by
          rw [(addNameToLocationImport_none_iff _ _ f.imports).mpr hfind]
          simp)
      · have hffound := findFile_updateFile_same project path
          { f with imports := imports1 } f hf
        simp only [importCountFor, hffound]
        rw [hfind]
        exact count_after_addName (ImportIdentifier.name what) (importLocation path what)
          f.imports imports1 d hclean hfind hadd

end AddImport

namespace TypescriptEditing

open UpgradeClientAutomation

/-- A file whose only import is a brace-less (default-style) import from
exactly the module specifier the parameter type's import resolves to. -/
def bracelessImportFile : SourceFileNode :=
  { imports := [{ identifiers := ["foo"], location := "src/HandlerContext",
                  hasOpenBrace := false }],
    declarations := [] }

/-- Counterexample to C7 as stated: against a file holding a brace-less
default import from the parameter type's module specifier, running the same
`AddParameter` requirement leaves the project completely unchanged (the
textual `{`-replacement is a no-op although `addImport` reports `true`), so
implementing it twice is the identical computation and ZERO import
statements mention the parameter type — not exactly one. -/
theorem addImport_braceless_counterexample :
    implementAddParameter [("src/f.ts", bracelessImportFile)] privateRootRequirement
        = .ok (reportUnimplemented (.addParameter privateRootRequirement none)
            "Function declaration not found", [("src/f.ts", bracelessImportFile)])
    ∧ AddImport.importCountFor [("src/f.ts", bracelessImportFile)] "src/f.ts"
        (ImportIdentifier.name privateRootRequirement.parameterType) = 0 :=
  ⟨rfl, rfl⟩

end TypescriptEditing

namespace AddImport

open UpgradeClientAutomation

/-- The one-file project before any import is added. -/
def emptyImportProject : Project :=
  [("src/f.ts", { imports := [], declarations := [] })]

/-- The same project after `addImport` prepended
`import { HandlerContext } from "src/HandlerContext";`. -/
def importAfterProject : Project :=
  [("src/f.ts",
    { imports := [{ identifiers := ["HandlerContext"], location := "src/HandlerContext",
                    hasOpenBrace := true }],
      declarations := [] })]

/-- Witness for C7 (amended) at a concrete input: after a first `addImport`
of `HandlerContext` into an import-free file, a second application leaves
the project unchanged, and exactly one import statement mentions the name. -/
theorem addImport_idempotent_and_import_count_witness :
    (∃ b2, addImport importAfterProject "src/f.ts"
        (ImportIdentifier.localImport "HandlerContext" "src/HandlerContext" none)
        = .ok (b2, importAfterProject))
    ∧ importCountFor importAfterProject "src/f.ts" "HandlerContext" = 1 :=
  ⟨(addImport_idempotent_and_import_count emptyImportProject "src/f.ts"
        (ImportIdentifier.localImport "HandlerContext" "src/HandlerContext" none)
        { imports := [], declarations := [] } (by decide)).2.1
      true importAfterProject rfl,
    (addImport_idempotent_and_import_count emptyImportProject "src/f.ts"
        (ImportIdentifier.localImport "HandlerContext" "src/HandlerContext" none)
        { imports := [], declarations := [] } (by decide)).2.2
      (by simp) true importAfterProject rfl⟩

end AddImport

namespace AddParameter

open UpgradeClientAutomation

/-- The `FunctionIdentifier` of the earlier `passContextToClone` generation of
the planner: `{ name, filePath }`. -/
structure FunctionIdentifier where
  name : String
  filePath : String
deriving DecidableEq, Repr

/-- The requirement sum type of `passContextToClone/AddParameter.ts` (the
worklist planner): `Add Parameter`, `Pass Dummy In Tests`, `Pass Argument`,
each with its opaque `why` provenance. -/
inductive Requirement where
  | addParameter (functionWithAdditionalParameter : FunctionIdentifier)
      (parameterType : ImportIdentifier) (parameterName : String) (dummyValue : String)
      (why : Option Requirement)
  | passDummyInTests (functionWithAdditionalParameter : FunctionIdentifier)
      (dummyValue : String) (why : Option Requirement)
  | passArgument (enclosingFunction : FunctionIdentifier)
      (functionWithAdditionalParameter : FunctionIdentifier) (argumentValue : String)
      (why : Option Requirement)

/-- The `kind` discriminant string of a requirement. -/
def kindOf : Requirement → String
  | .addParameter _ _ _ _ _ => "Add Parameter"
  | .passDummyInTests _ _ _ => "Pass Dummy In Tests"
  | .passArgument _ _ _ _ => "Pass Argument"

/-- The `functionWithAdditionalParameter` field, present on every variant. -/
def functionWithAdditionalParameter : Requirement → FunctionIdentifier
  | .addParameter fn _ _ _ _ => fn
  | .passDummyInTests fn _ _ => fn
  | .passArgument _ fn _ _ => fn

/-- Predicate `isPassArgumentRequirement`. -/
def isPassArgumentRequirement : Requirement → Bool
  | .passArgument _ _ _ _ => true
  | _ => false

/-- The `enclosingFunction` of a `Pass Argument` requirement. -/
def enclosingFunctionOf : Requirement → Option FunctionIdentifier
  | .passArgument enclosingFunction _ _ _ => some enclosingFunction
  | _ => none

/-- Function `sameFunctionIdentifier`: name and file path agree. -/
def sameFunctionIdentifier (r1 r2 : FunctionIdentifier) : Bool :=
  r1.name = r2.name && r1.filePath = r2.filePath

/-- The guarded access `(r2 as PassArgumentRequirement).enclosingFunction`
of `sameRequirement`: it is only evaluated when both requirements are
`Pass Argument` (the kind equality conjunct short-circuits otherwise), so
comparing the optional enclosing functions is faithful. -/
def sameEnclosingFunction : Option FunctionIdentifier → Option FunctionIdentifier → Bool
  | some a, some b => sameFunctionIdentifier a b
  | _, _ => false

/-- Function `sameRequirement` from `passContextToClone/AddParameter.ts`: kind,
target identity (and its file path, compared once more), and — for
`Pass Argument` — the enclosing function identity; `why` is ignored. -/
def sameRequirement (r1 r2 : Requirement) : Bool :=
  kindOf r1 = kindOf r2 &&
  sameFunctionIdentifier (functionWithAdditionalParameter r1)
    (functionWithAdditionalParameter r2) &&
  (functionWithAdditionalParameter r1).filePath
    = (functionWithAdditionalParameter r2).filePath &&
  (!isPassArgumentRequirement r1 ||
    sameEnclosingFunction (enclosingFunctionOf r1) (enclosingFunctionOf r2))

/-- The equality key `sameRequirement` actually compares: kind, target
identifier, and (for `Pass Argument`) the enclosing identifier. -/
structure RequirementKey where
  kind : String
  target : FunctionIdentifier
  enclosing : Option FunctionIdentifier
deriving DecidableEq, Repr

/-- The key of a requirement. -/
def key (r : Requirement) : RequirementKey :=
  { kind := kindOf r, target := functionWithAdditionalParameter r,
    enclosing := enclosingFunctionOf r }

/-- Fact: `sameFunctionIdentifier` is identifier equality. -/
theorem sameFunctionIdentifier_iff (a b : FunctionIdentifier) :
    sameFunctionIdentifier a b = true ↔ a = b := by
  cases a
  cases b
  simp [sameFunctionIdentifier, FunctionIdentifier.mk.injEq]

/-- Fact: `sameRequirement` is exactly equality of keys (so it ignores `why` and
the non-identity fields). -/
theorem sameRequirement_iff_key_eq (r1 r2 : Requirement) :
    sameRequirement r1 r2 = true ↔ key r1 = key r2 := by
  cases r1 <;> cases r2 <;>
    simp [sameRequirement, kindOf, functionWithAdditionalParameter, enclosingFunctionOf,
      isPassArgumentRequirement, sameEnclosingFunction, sameFunctionIdentifier_iff, key,
      RequirementKey.mk.injEq] <;>
    aesop

/-- A function declaration of the project, carrying the observations the
worklist planner makes of it through the black-box parser: its identifier
(first `Identifier` child), file path, formal parameters, and the —
possibly dotted — callee names occurring in its body (what
`functionCallPathExpression` matches on). -/
structure SourceFunction where
  name : String
  filePath : String
  parameters : List Parameter
  calls : List String
deriving DecidableEq, Repr

/-- The project as the worklist planner queries it: its function
declarations. -/
structure SourceProject where
  functions : List SourceFunction
deriving DecidableEq, Repr

/-- The matches of
`findMatches(project, parser, "src/**/*.ts", `//FunctionDeclaration[${innerExpression}]`)`:
function declarations under `src/` whose body contains a call matching the
target's (possibly dotted) name. -/
def findEnclosingFunctions (project : SourceProject) (callee : String) :
    List SourceFunction :=
  project.functions.filter
    (fun fn => fn.filePath.startsWith "src/" && fn.calls.contains callee)

/-- Function `findConsequencesOfAddParameter` of the worklist planner: every
enclosing function either reuses a suitable parameter (one
`Pass Argument`), or receives the parameter itself (an `Add Parameter`
followed by a `Pass Argument` passing the new parameter's name); a
`Pass Dummy In Tests` is appended unconditionally. -/
def findConsequencesOfAddParameter (project : SourceProject)
    (functionWithAdditionalParameter : FunctionIdentifier)
    (parameterType : ImportIdentifier) (parameterName dummyValue : String) :
    List Requirement :=
  let passDummyInTests : Requirement :=
    .passDummyInTests functionWithAdditionalParameter dummyValue none
  let srcConsequences :=
    (findEnclosingFunctions project functionWithAdditionalParameter.name).flatMap
      (fun enclosingFunction =>
        let enclosingFunctionName := enclosingFunction.name
        let filePath := enclosingFunction.filePath
        match enclosingFunction.parameters.filter
            (fun p => p.typeName = parameterType.name) with
        | identifier :: _ =>
          [.passArgument { name := enclosingFunctionName, filePath := filePath }
            functionWithAdditionalParameter identifier.name none]
        | [] =>
          [.addParameter { name := enclosingFunctionName, filePath := filePath }
            parameterType parameterName dummyValue none,
           .passArgument { name := enclosingFunctionName, filePath := filePath }
            functionWithAdditionalParameter parameterName none])
  srcConsequences ++ [passDummyInTests]

/-- The spread `\x7b...c, why: requirement\x7d`: replace the `why` provenance. -/
def setWhy : Requirement → Option Requirement → Requirement
  | .addParameter a b c d _, why => .addParameter a b c d why
  | .passDummyInTests a b _, why => .passDummyInTests a b why
  | .passArgument a b c _, why => .passArgument a b c why

/-- Function `findConsequencesOfOne`: only `Add Parameter` requirements have
consequences; each consequence's `why` is set to the generating
requirement. -/
def findConsequencesOfOne (project : SourceProject) (requirement : Requirement) :
    List Requirement :=
  match requirement with
  | .addParameter fn parameterType parameterName dummyValue _ =>
    (findConsequencesOfAddParameter project fn parameterType parameterName dummyValue).map
      (fun c => setWhy c (some requirement))
  | _ => []

/-- Function `findConsequences` from `passContextToClone/AddParameter.ts`: the
worklist recursion.  `unchecked.pop()` removes the last element of the
unchecked array (modelled by `getLast?`/`dropLast`); a requirement equal to
an already-checked one is dropped; otherwise its consequences are appended
to the worklist (`unchecked.concat(theseReqs)`) and it is pushed onto
`checked`.  The recursion is embedded with explicit fuel; `none` means the
fuel ran out (the termination theorem shows sufficient fuel always
exists). -/
def findConsequences (conseq : Requirement → List Requirement) :
    Nat → List Requirement → List Requirement → Option (List Requirement)
  | 0, _, _ => none
  | fuel + 1, unchecked, checked =>
    match unchecked.getLast? with
    | none => some checked
    | some thisOne =>
      let rest := unchecked.dropLast
      if checked.any (fun o => sameRequirement o thisOne) then
        findConsequences conseq fuel rest checked
      else
        findConsequences conseq fuel (rest ++ conseq thisOne) (checked ++ [thisOne])

/-- Keys of `checked` entries cover ever fewer entries of the key universe:
the number of uncovered universe entries. -/
def missingKeys (keyUniverse : List RequirementKey) (checked : List Requirement) : Nat :=
  (keyUniverse.filter
    (fun k => !(checked.any (fun c => key c = k)))).length

/-- The termination measure of the worklist: uncovered keys weighted by the
maximal consequence count, plus the worklist length. -/
def worklistMeasure (keyUniverse : List RequirementKey) (growthBound : Nat)
    (unchecked checked : List Requirement) : Nat :=
  missingKeys keyUniverse checked * (growthBound + 1) + unchecked.length

theorem length_filter_le_of_imp {α : Type} (l : List α) (p q : α → Bool)
    (himp : ∀ a ∈ l, q a = true → p a = true) :
    (l.filter q).length ≤ (l.filter p).length := by
  induction l with
  | nil => simp
  | cons x xs ih =>
    have ihx := ih (fun a ha => himp a (List.mem_cons_of_mem x ha))
    by_cases hq : q x = true
    · rw [List.filter_cons_of_pos hq,
        List.filter_cons_of_pos (himp x (List.mem_cons_self x xs) hq)]
      simpa using ihx
    · rw [List.filter_cons_of_neg (by simpa using hq)]
      by_cases hp : p x = true
      · rw [List.filter_cons_of_pos hp]
        simp only [List.length_cons]
        omega
      · rw [List.filter_cons_of_neg (by simpa using hp)]
        exact ihx

theorem length_filter_lt_of_flip {α : Type} (l : List α) (p q : α → Bool)
    (himp : ∀ a ∈ l, q a = true → p a = true)
    (a : α) (ha : a ∈ l) (hpa : p a = true) (hqa : q a = false) :
    (l.filter q).length < (l.filter p).length := by
  induction l with
  | nil => simp at ha
  | cons x xs ih =>
    have himpxs : ∀ b ∈ xs, q b = true → p b = true :=
      fun b hb => himp b (List.mem_cons_of_mem x hb)
    rcases List.mem_cons.mp ha with rfl | haxs
    · rw [List.filter_cons_of_pos hpa, List.filter_cons_of_neg (by simp [hqa])]
      have := length_filter_le_of_imp xs p q himpxs
      simp only [List.length_cons]
      omega
    · by_cases hq : q x = true
      · rw [List.filter_cons_of_pos hq,
          List.filter_cons_of_pos (himp x (List.mem_cons_self x xs) hq)]
        simpa using ih himpxs haxs
      · rw [List.filter_cons_of_neg (by simpa using hq)]
        by_cases hp : p x = true
        · rw [List.filter_cons_of_pos hp]
          have := ih himpxs haxs
          simp only [List.length_cons]
          omega
        · rw [List.filter_cons_of_neg (by simpa using hp)]
          exact ih himpxs haxs

/-- Termination of the worklist: when every consequence stays inside a
finite key universe and the per-step growth is bounded, the recursion
completes within any fuel exceeding the measure. -/
theorem findConsequences_terminates (conseq : Requirement → List Requirement)
    (keyUniverse : List RequirementKey) (growthBound : Nat)
    (hclose : ∀ r, key r ∈ keyUniverse → ∀ r' ∈ conseq r, key r' ∈ keyUniverse)
    (hlen : ∀ r, (conseq r).length ≤ growthBound) :
    ∀ (fuel : Nat) (unchecked checked : List Requirement),
      (∀ r ∈ unchecked, key r ∈ keyUniverse) →
      (∀ r ∈ checked, key r ∈ keyUniverse) →
      worklistMeasure keyUniverse growthBound unchecked checked < fuel →
      ∃ out, findConsequences conseq fuel unchecked checked = some out := by
  intro fuel
  induction fuel with
  | zero =>
    intro unchecked checked _ _ hm
    omega
  | succ fuel ih =>
    intro unchecked checked hu hc hm
    rcases hlast : unchecked.getLast? with _ | thisOne
    · exact ⟨checked, by simp [findConsequences, hlast]⟩
    · have hsplit : unchecked.dropLast ++ [thisOne] = unchecked :=
        List.dropLast_append_getLast? thisOne hlast
      have hmem : thisOne ∈ unchecked := by
        rw [← hsplit]
        simp
      have hulen : unchecked.dropLast.length + 1 = unchecked.length := by
        conv_rhs => rw [← hsplit]
        simp
      have hurest : ∀ r ∈ unchecked.dropLast, key r ∈ keyUniverse := by
        intro r hr
        exact hu r (by rw [← hsplit]; exact List.mem_append_left _ hr)
      have hku : key thisOne ∈ keyUniverse := hu thisOne hmem
      by_cases hdup : checked.any (fun o => sameRequirement o thisOne) = true
      · obtain ⟨out, hout⟩ := ih unchecked.dropLast checked hurest hc (by
          have hm' := hm
          simp only [worklistMeasure] at hm' ⊢
          omega)
        exact ⟨out, by simp only [findConsequences, hlast, if_pos hdup]; exact hout⟩
      · have hnew : ∀ o ∈ checked, sameRequirement o thisOne = false := by
          intro o ho
          by_contra hcon
          exact hdup (List.any_eq_true.mpr ⟨o, ho, by simpa using hcon⟩)
        have hmissing : missingKeys keyUniverse (checked ++ [thisOne]) + 1
            ≤ missingKeys keyUniverse checked := by
          have hlt := length_filter_lt_of_flip keyUniverse
            (fun k => !(checked.any (fun c => key c = k)))
            (fun k => !((checked ++ [thisOne]).any (fun c => key c = k)))
            (by
              intro k _ hqk
              simp only [List.any_append, Bool.not_eq_true', Bool.or_eq_false_iff]
                at hqk
              simp [hqk.1])
            (key thisOne) hku
            (by
              simp only [Bool.not_eq_true', List.any_eq_false]
              intro c hcmem
              have hne : ¬ key c = key thisOne := by
                intro hkeq
                exact absurd ((sameRequirement_iff_key_eq c thisOne).mpr hkeq)
                  (by simp [hnew c hcmem])
              simpa using hne)
            (by simp [List.any_append])
          simpa [missingKeys] using hlt
        have hnewu : ∀ r ∈ unchecked.dropLast ++ conseq thisOne,
            key r ∈ keyUniverse := by
          intro r hr
          rcases List.mem_append.mp hr with hr | hr
          · exact hurest r hr
          · exact hclose thisOne hku r hr
        have hnewc : ∀ r ∈ checked ++ [thisOne], key r ∈ keyUniverse := by
          intro r hr
          rcases List.mem_append.mp hr with hr | hr
          · exact hc r hr
          · simp at hr
            subst hr
            exact hku
        obtain ⟨out, hout⟩ := ih (unchecked.dropLast ++ conseq thisOne)
          (checked ++ [thisOne]) hnewu hnewc (by
            have hclen := hlen thisOne
            have hmul := Nat.mul_le_mul_right (growthBound + 1) hmissing
            simp only [worklistMeasure, List.length_append] at hm ⊢
            have hadd : (missingKeys keyUniverse (checked ++ [thisOne]) + 1)
                * (growthBound + 1)
                = missingKeys keyUniverse (checked ++ [thisOne]) * (growthBound + 1)
                  + (growthBound + 1) := by ring
            omega)
        exact ⟨out, by simp only [findConsequences, hlast, if_neg hdup]; exact hout⟩

/-- The worklist drops a requirement equal to an already-planned one before
expanding it, so the planned result never holds two requirements that
compare equal under `sameRequirement`. -/
theorem findConsequences_pairwise (conseq : Requirement → List Requirement) :
    ∀ (fuel : Nat) (unchecked checked out : List Requirement),
      checked.Pairwise (fun a b => sameRequirement a b = false) →
      findConsequences conseq fuel unchecked checked = some out →
      out.Pairwise (fun a b => sameRequirement a b = false) := by
  intro fuel
  induction fuel with
  | zero =>
    intro unchecked checked out _ hrun
    simp [findConsequences] at hrun
  | succ fuel ih =>
    intro unchecked checked out hpw hrun
    rcases hlast : unchecked.getLast? with _ | thisOne
    · simp only [findConsequences, hlast, Option.some.injEq] at hrun
      exact hrun ▸ hpw
    · by_cases hdup : checked.any (fun o => sameRequirement o thisOne) = true
      · simp only [findConsequences, hlast, if_pos hdup] at hrun
        exact ih _ _ out hpw hrun
      · simp only [findConsequences, hlast, if_neg hdup] at hrun
        refine ih _ _ out ?_ hrun
        rw [List.pairwise_append]
        refine ⟨hpw, by simp, ?_⟩
        intro a ha b hb
        simp only [List.mem_singleton] at hb
        subst hb
        by_contra hcon
        exact hdup (List.any_eq_true.mpr ⟨a, ha, by simpa using hcon⟩)

theorem length_flatMap_le {α β : Type} (l : List α) (f : α → List β) (c : Nat)
    (h : ∀ a ∈ l, (f a).length ≤ c) :
    (l.flatMap f).length ≤ c * l.length := by
  induction l with
  | nil => simp
  | cons x xs ih =>
    have hx := h x (List.mem_cons_self x xs)
    have ihx := ih (fun a ha => h a (List.mem_cons_of_mem x ha))
    simp only [List.flatMap_cons, List.length_append, List.length_cons, Nat.mul_succ]
    omega

/-- The identifiers of the project's function declarations. -/
def projectIds (project : SourceProject) : List FunctionIdentifier :=
  project.functions.map (fun fn => { name := fn.name, filePath := fn.filePath })

/-- The targets reachable during planning: the root's target or a project
function. -/
def reachableTargets (project : SourceProject) (root : Requirement) :
    List FunctionIdentifier :=
  functionWithAdditionalParameter root :: projectIds project

/-- The finite key universe reachable from a root in a project: the root's
own key, `Add Parameter` keys for every project function, and
`Pass Dummy In Tests` / `Pass Argument` keys for every reachable target and
enclosing project function. -/
def requirementKeys (project : SourceProject) (root : Requirement) :
    List RequirementKey :=
  key root ::
    ((projectIds project).map (fun i =>
        ({ kind := "Add Parameter", target := i, enclosing := none } : RequirementKey))
      ++ (reachableTargets project root).map (fun t =>
        ({ kind := "Pass Dummy In Tests", target := t, enclosing := none } : RequirementKey))
      ++ (reachableTargets project root).flatMap (fun t => (projectIds project).map (fun e =>
        ({ kind := "Pass Argument", target := t, enclosing := some e } : RequirementKey))))

theorem key_setWhy (r : Requirement) (why : Option Requirement) :
    key (setWhy r why) = key r := by
  cases r <;> rfl

theorem mem_requirementKeys_addParameter (project : SourceProject) (root : Requirement)
    (i : FunctionIdentifier) (hi : i ∈ projectIds project) :
    ({ kind := "Add Parameter", target := i, enclosing := none } : RequirementKey)
      ∈ requirementKeys project root :=
  List.mem_cons_of_mem _ (by
    refine List.mem_append_left _ (List.mem_append_left _ ?_)
    exact List.mem_map.mpr ⟨i, hi, rfl⟩)

theorem mem_requirementKeys_dummy (project : SourceProject) (root : Requirement)
    (t : FunctionIdentifier) (ht : t ∈ reachableTargets project root) :
    ({ kind := "Pass Dummy In Tests", target := t, enclosing := none } : RequirementKey)
      ∈ requirementKeys project root :=
  List.mem_cons_of_mem _ (by
    refine List.mem_append_left _ (List.mem_append_right _ ?_)
    exact List.mem_map.mpr ⟨t, ht, rfl⟩)

theorem mem_requirementKeys_passArgument (project : SourceProject) (root : Requirement)
    (t e : FunctionIdentifier) (ht : t ∈ reachableTargets project root)
    (he : e ∈ projectIds project) :
    ({ kind := "Pass Argument", target := t, enclosing := some e } : RequirementKey)
      ∈ requirementKeys project root :=
  List.mem_cons_of_mem _ (by
    refine List.mem_append_right _ ?_
    exact List.mem_flatMap.mpr ⟨t, ht, List.mem_map.mpr ⟨e, he, rfl⟩⟩)

/-- The target of an `Add Parameter` requirement whose key lies in the
universe is itself a reachable target. -/
theorem target_reachable_of_key_mem (project : SourceProject) (root : Requirement)
    (fn : FunctionIdentifier) (parameterType : ImportIdentifier)
    (parameterName dummyValue : String) (why : Option Requirement)
    (hr : key (.addParameter fn parameterType parameterName dummyValue why)
      ∈ requirementKeys project root) :
    fn ∈ reachableTargets project root := by
  simp only [requirementKeys, List.mem_cons, List.mem_append, List.mem_map,
    List.mem_flatMap] at hr
  rcases hr with hr | (hr | hr) | hr
  · have htarget : (key (Requirement.addParameter fn parameterType parameterName
        dummyValue why)).target = (key root).target := by rw [hr]
    simp only [key, functionWithAdditionalParameter] at htarget
    rw [reachableTargets, htarget]
    exact List.mem_cons_self _ _
  · obtain ⟨i, hi, hkeq⟩ := hr
    have : i = fn := by
      have := congrArg RequirementKey.target hkeq
      simpa [key, functionWithAdditionalParameter] using this
    subst this
    exact List.mem_cons_of_mem _ hi
  · obtain ⟨t, _, hkeq⟩ := hr
    have := congrArg RequirementKey.kind hkeq
    simp [key, kindOf] at this
  · obtain ⟨t, _, e, _, hkeq⟩ := hr
    have := congrArg RequirementKey.kind hkeq
    simp [key, kindOf] at this

/-- A requirement whose key lies in the universe only generates
consequences whose keys lie in the universe. -/
theorem requirementKeys_closed (project : SourceProject) (root : Requirement) :
    ∀ r, key r ∈ requirementKeys project root →
      ∀ r' ∈ findConsequencesOfOne project r, key r' ∈ requirementKeys project root := by
  intro r hr r' hr'
  rcases r with ⟨fn, parameterType, parameterName, dummyValue, why⟩ | _ | _
  rotate_left
  · simp [findConsequencesOfOne] at hr'
  · simp [findConsequencesOfOne] at hr'
  · have hfn : fn ∈ reachableTargets project root :=
      target_reachable_of_key_mem project root fn parameterType parameterName
        dummyValue why hr
    simp only [findConsequencesOfOne, List.mem_map] at hr'
    obtain ⟨c, hc, hcr'⟩ := hr'
    subst hcr'
    rw [key_setWhy]
    simp only [findConsequencesOfAddParameter, List.mem_append, List.mem_flatMap,
      List.mem_singleton] at hc
    rcases hc with ⟨g, hg, hcg⟩ | hdummy
    · have hgmem : ({ name := g.name, filePath := g.filePath } : FunctionIdentifier)
          ∈ projectIds project :=
        List.mem_map.mpr ⟨g, List.mem_of_mem_filter hg, rfl⟩
      rcases hfilter : g.parameters.filter
          (fun p => p.typeName = parameterType.name) with _ | ⟨identifier, rest⟩ <;>
        rw [hfilter] at hcg <;>
        simp only [List.mem_cons, List.mem_singleton, List.not_mem_nil, or_false] at hcg
      · rcases hcg with hcg | hcg <;> subst hcg
        · exact mem_requirementKeys_addParameter project root _ hgmem
        · exact mem_requirementKeys_passArgument project root _ _ hfn hgmem
      · subst hcg
        exact mem_requirementKeys_passArgument project root _ _ hfn hgmem
    · subst hdummy
      exact mem_requirementKeys_dummy project root _ hfn

/-- Each call-site match contributes at most two consequences, so one
expansion step emits at most `2 * |functions| + 1` requirements. -/
theorem length_findConsequencesOfOne_le (project : SourceProject) (r : Requirement) :
    (findConsequencesOfOne project r).length ≤ 2 * project.functions.length + 1 := by
  rcases r with ⟨fn, parameterType, parameterName, dummyValue, why⟩ | _ | _
  rotate_left
  · simp [findConsequencesOfOne]
  · simp [findConsequencesOfOne]
  · simp only [findConsequencesOfOne, List.length_map, findConsequencesOfAddParameter,
      List.length_append, List.length_singleton]
    have hflat : ((findEnclosingFunctions project fn.name).flatMap
        (fun enclosingFunction =>
          match enclosingFunction.parameters.filter
              (fun p => p.typeName = parameterType.name) with
          | identifier :: _ =>
            [Requirement.passArgument
              { name := enclosingFunction.name, filePath := enclosingFunction.filePath }
              fn identifier.name none]
          | [] =>
            [Requirement.addParameter
              { name := enclosingFunction.name, filePath := enclosingFunction.filePath }
              parameterType parameterName dummyValue none,
             Requirement.passArgument
              { name := enclosingFunction.name, filePath := enclosingFunction.filePath }
              fn parameterName none])).length
        ≤ 2 * (findEnclosingFunctions project fn.name).length := by
      refine length_flatMap_le _ _ 2 ?_
      intro g _
      rcases hv : g.parameters.filter (fun p => p.typeName = parameterType.name)
          with _ | _ <;>
        rw [hv] <;> simp
    have hfe : (findEnclosingFunctions project fn.name).length
        ≤ project.functions.length := List.length_filter_le _ _
    omega

/-- C4: for every finite project and every root requirement, the worklist
consequence-finding (`findConsequences`) terminates — fuel exceeding the
key-universe measure always exists — and the planned result contains no two
requirements that compare equal under `sameRequirement` (requirement
equality ignoring `why`): before expanding a requirement it is compared
against the requirements already planned and dropped if an equal one
exists. -/
theorem findConsequences_terminates_and_deduplicates
    (project : SourceProject) (root : Requirement) :
    ∃ fuel out,
      findConsequences (findConsequencesOfOne project) fuel [root] [] = some out
      ∧ out.Pairwise (fun a b => sameRequirement a b = false) := by
  obtain ⟨out, hout⟩ := findConsequences_terminates (findConsequencesOfOne project)
    (requirementKeys project root) (2 * project.functions.length + 1)
    (requirementKeys_closed project root)
    (length_findConsequencesOfOne_le project)
    ((requirementKeys project root).length * (2 * project.functions.length + 1 + 1) + 2)
    [root] []
    (by
      intro r hr
      simp only [List.mem_singleton] at hr
      subst hr
      exact List.mem_cons_self _ _)
    (by intro r hr; simp at hr)
    (by
      simp only [worklistMeasure, missingKeys, List.length_singleton]
      have hle : ((requirementKeys project root).filter
          (fun k => !(([] : List Requirement).any (fun c => key c = k)))).length
          ≤ (requirementKeys project root).length := List.length_filter_le _ _
      have hmul := Nat.mul_le_mul_right (2 * project.functions.length + 1 + 1) hle
      omega)
  exact ⟨_, out, hout,
    findConsequences_pairwise (findConsequencesOfOne project) _ [root] [] out
      (by simp) hout⟩
